import Mathlib

/-!
Verification of the happy CLI permission bridge, elicitation codec,
version negotiator, session restart guard and codex runner resolver.

The definitions below are a shallow embedding of the TypeScript sources:
  - `cli/src/utils/BasePermissionHandler.ts` (permission bridge)
  - `cli/src/codex/utils/permissionHandler.ts` (codex auto-approval policy)
  - `cli/src/codex/utils/elicitation.ts` (codec + version negotiator)
  - `cli/src/codex/utils/runner.ts` (runner resolver)
JavaScript `Map`/object dictionaries are modelled as association lists with
string keys (`alGet`/`alSet`/`alDelete` reproduce the get/set/delete
semantics); promise resolution, promise rejection, and timer scheduling are
modelled as explicit effect events emitted by the state-transition functions.
-/

namespace Happy

/-! ## String helpers (JS `toLowerCase` and `includes`) -/

/-- Character-list model of JS `String.prototype.includes`:
`needle` occurs contiguously in the haystack. -/
def charsInclude (needle : List Char) : List Char → Bool
  | [] => needle.isEmpty
  | c :: rest => needle.isPrefixOf (c :: rest) || charsInclude needle rest

/-- JS `hay.includes(needle)`. -/
def strIncludes (hay : String) (needle : String) : Bool :=
  charsInclude needle.data hay.data

/-- JS `s.toLowerCase()` (ASCII-faithful). -/
def lowerStr (s : String) : String :=
  String.mk (s.data.map Char.toLower)

/-! ## Association-list maps with string keys -/

/-- Lookup, JS `map.get(k)` / `obj[k]`. -/
def alGet {α : Type} : List (String × α) → String → Option α
  | [], _ => none
  | (k2, v) :: rest, k => if k2 = k then some v else alGet rest k

/-- Deletion, JS `map.delete(k)` / rest-spread without `k`. -/
def alDelete {α : Type} : List (String × α) → String → List (String × α)
  | [], _ => []
  | (k2, v) :: rest, k =>
      if k2 = k then alDelete rest k else (k2, v) :: alDelete rest k

/-- Insertion/overwrite, JS `map.set(k, v)` / spread-with-key.
Entry order may differ from the JS runtime map, lookup semantics agree. -/
def alSet {α : Type} (m : List (String × α)) (k : String) (v : α) :
    List (String × α) :=
  alDelete m k ++ [(k, v)]

theorem alGet_append {α : Type} (m1 m2 : List (String × α)) (k : String) :
    alGet (m1 ++ m2) k = ((alGet m1 k).rec (alGet m2 k) (fun v => some v) : Option α) := by
  induction m1 with
  | nil => rfl
  | cons h t ih =>
    obtain ⟨k2, v⟩ := h
    by_cases hk : k2 = k
    · simp [alGet, hk]
    · simp [alGet, hk, ih]

theorem alGet_alDelete_self {α : Type} (m : List (String × α)) (k : String) :
    alGet (alDelete m k) k = none := by
  induction m with
  | nil => rfl
  | cons h t ih =>
    obtain ⟨k2, v⟩ := h
    by_cases hk : k2 = k
    · simp [alDelete, hk, ih]
    · simp [alDelete, alGet, hk, ih]

theorem alGet_alDelete_ne {α : Type} (m : List (String × α)) (k k' : String)
    (h : k' ≠ k) : alGet (alDelete m k) k' = alGet m k' := by
  induction m with
  | nil => rfl
  | cons hd t ih =>
    obtain ⟨k2, v⟩ := hd
    by_cases hk : k2 = k
    · subst hk
      have hkk : ¬ k2 = k' := fun hc => h hc.symm
      simp [alDelete, alGet, hkk, ih]
    · simp only [alDelete, hk, if_false]
      by_cases hk2 : k2 = k'
      · simp [alGet, hk2]
      · simp [alGet, hk2, ih]

theorem alGet_alSet_self {α : Type} (m : List (String × α)) (k : String) (v : α) :
    alGet (alSet m k v) k = some v := by
  unfold alSet
  rw [alGet_append, alGet_alDelete_self]
  simp [alGet]

theorem alGet_alSet_ne {α : Type} (m : List (String × α)) (k k' : String) (v : α)
    (h : k' ≠ k) : alGet (alSet m k v) k' = alGet m k' := by
  unfold alSet
  rw [alGet_append]
  rw [alGet_alDelete_ne m k k' h]
  cases hg : alGet m k' with
  | none =>
      have hkk : ¬ k = k' := fun hc => h hc.symm
      simp [alGet, hkk]
  | some w => simp

theorem alGet_mem {α : Type} (m : List (String × α)) (k : String) (v : α)
    (h : alGet m k = some v) : (k, v) ∈ m := by
  induction m with
  | nil => simp [alGet] at h
  | cons hd t ih =>
    obtain ⟨k2, w⟩ := hd
    by_cases hk : k2 = k
    · subst hk
      simp [alGet] at h
      subst h
      exact List.mem_cons_self _ _
    · simp [alGet, hk] at h
      exact List.mem_cons_of_mem _ (ih h)

/-! ## Elicitation codec and version negotiator (`elicitation.ts`) -/

/-- Wire-level review decision: a plain string tag or the structured
execpolicy-amendment object. -/
inductive ReviewDecision where
  | plain (tag : String)
  | approvedExecpolicyAmendment (proposed : List String)
deriving DecidableEq, Repr

/-- The `execPolicyAmendment` payload: `{ command: string[] }`. -/
structure ExecPolicyAmendment where
  command : List String
deriving DecidableEq, Repr

/-- Result of a permission request (`PermissionResult`): a decision tag with
an optional execpolicy amendment. -/
structure PermissionResult where
  decision : String
  execPolicyAmendment : Option ExecPolicyAmendment := none
deriving DecidableEq, Repr

/-- `mapPermissionResultToDecision` from `elicitation.ts`. -/
def mapPermissionResultToDecision (result : PermissionResult) : ReviewDecision :=
  if result.decision = "approved_execpolicy_amendment" then
    match result.execPolicyAmendment with
    | some a =>
        if a.command.length != 0 then
          ReviewDecision.approvedExecpolicyAmendment a.command
        else
          ReviewDecision.plain "approved"
    | none => ReviewDecision.plain "approved"
  else
    ReviewDecision.plain result.decision

/-- `CodexVersionInfo` from `elicitation.ts`. -/
structure CodexVersionInfo where
  raw : Option String
  parsed : Bool
  major : Int
  minor : Int
  patch : Int
  prereleaseTag : Option String := none
  prereleaseNum : Option Int := none
deriving DecidableEq, Repr

/-- `CodexVersionTarget` from `elicitation.ts` (the comparison probe). -/
structure CodexVersionTarget where
  major : Int
  minor : Int
  patch : Int
  prereleaseTag : Option String := none
  prereleaseNum : Option Int := none
deriving DecidableEq, Repr

/-- The fixed cutoff `ELICITATION_DECISION_MAX_VERSION = 0.77.0`. -/
def ELICITATION_DECISION_MAX_VERSION : CodexVersionTarget :=
  { major := 0, minor := 77, patch := 0 }

/-- Model of JS `String.prototype.localeCompare` restricted to its sign:
lexical string order (the prerelease tags compared are lowercase ASCII). -/
def localeCompare (s t : String) : Int :=
  if s < t then -1 else if t < s then 1 else 0

/-- `compareVersions` from `elicitation.ts`. -/
def compareVersions (info : CodexVersionInfo) (target : CodexVersionTarget) : Int :=
  if info.major ≠ target.major then info.major - target.major
  else if info.minor ≠ target.minor then info.minor - target.minor
  else if info.patch ≠ target.patch then info.patch - target.patch
  else
    match info.prereleaseTag, target.prereleaseTag with
    | none, none => 0
    | none, some _ => 1
    | some _, none => -1
    | some iTag, some tTag =>
        if iTag ≠ tTag then localeCompare iTag tTag
        else info.prereleaseNum.getD 0 - target.prereleaseNum.getD 0

/-- `isVersionAtMost` from `elicitation.ts`. -/
def isVersionAtMost (info : CodexVersionInfo) (target : CodexVersionTarget) : Bool :=
  if !info.parsed then false
  else decide (compareVersions info target ≤ 0)

/-- `getElicitationResponseStyle` from `elicitation.ts`; styles are the
strings "decision" and "both", the override is the optional environment
value. -/
def getElicitationResponseStyle (info : CodexVersionInfo)
    (override : Option String) : String :=
  if override = some "decision" then "decision"
  else if override = some "both" then "both"
  else if !info.parsed then "both"
  else if isVersionAtMost info ELICITATION_DECISION_MAX_VERSION then "decision"
  else "both"

/-! ## Runner resolver (`runner.ts`) -/

/-- `CodexRunner` from `runner.ts`. -/
structure CodexRunner where
  command : String
  args : List String
  label : String
deriving DecidableEq, Repr

/-- `CODEX_MCP_SUBCOMMAND` from `runner.ts`. -/
def CODEX_MCP_SUBCOMMAND : String := "mcp-server"

/-- `buildCodexMcpCommand` from `runner.ts`. -/
def buildCodexMcpCommand (runner : CodexRunner) : String × List String :=
  (runner.command, runner.args ++ [CODEX_MCP_SUBCOMMAND])

/-! ## Permission bridge (`BasePermissionHandler.ts`) -/

/-- A request id on the wire: `string | number`. -/
inductive RequestId where
  | str (s : String)
  | num (n : Int)
deriving DecidableEq, Repr

/-- `normalizeRequestId`: ids are normalized to strings (`String(id)` for
numbers) so map keys and JSON object keys always match. -/
def normalizeRequestId : RequestId → String
  | RequestId.str s => s
  | RequestId.num n => toString n

/-- Inbound `PermissionResponse` from the session channel. -/
structure PermissionResponse where
  id : RequestId
  approved : Bool
  decision : Option String := none
  execPolicyAmendment : Option ExecPolicyAmendment := none
deriving DecidableEq, Repr

/-- The opaque tool-input payload (`input: unknown` in the source). -/
abbrev Input := String

/-- `PendingRequest` held in the correlation table (the resolve/reject
handles are modelled as effect events keyed by the request id). -/
structure PendingRequest where
  toolName : String
  input : Input
deriving DecidableEq, Repr

/-- An in-flight entry of external agent state (`requests[id]`). -/
structure AgentRequest where
  tool : String
  arguments : Input
  createdAt : Nat
deriving DecidableEq, Repr

/-- A completed entry of external agent state (`completedRequests[id]`). -/
structure CompletedRequest where
  tool : String
  arguments : Input
  createdAt : Nat
  completedAt : Nat
  status : String
  decision : Option String := none
  reason : Option String := none
deriving DecidableEq, Repr

/-- Observable side effects of the handler: promise resolution/rejection and
advisory-timer scheduling/clearing. -/
inductive Effect where
  | resolve (id : String) (result : PermissionResult)
  | reject (id : String) (message : String)
  | scheduleTimer (id : String)
  | clearTimer (id : String)
deriving DecidableEq, Repr

/-- True exactly on promise-resolution effects. -/
def Effect.isResolve : Effect → Bool
  | Effect.resolve _ _ => true
  | _ => false

/-- True exactly on promise-rejection effects. -/
def Effect.isReject : Effect → Bool
  | Effect.reject _ _ => true
  | _ => false

/-- The mutable state of a `BasePermissionHandler` together with the external
agent state it manipulates through `session.updateAgentState`. -/
structure HandlerState where
  pendingRequests : List (String × PendingRequest)
  pendingWarningTimers : List String
  isResetting : Bool
  agentRequests : List (String × AgentRequest)
  agentCompleted : List (String × CompletedRequest)
deriving DecidableEq, Repr

/-- `schedulePendingWarning`: skip when a timer for the id already exists,
otherwise schedule a one-shot advisory timer. -/
def schedulePendingWarning (timers : List String) (requestId : String) :
    List String × List Effect :=
  if timers.contains requestId then (timers, [])
  else (timers ++ [requestId], [Effect.scheduleTimer requestId])

/-- `clearPendingWarning`: clear the timer when present, then drop the map
entry. -/
def clearPendingWarning (timers : List String) (requestId : String) :
    List String × List Effect :=
  (timers.filter (fun t => t != requestId),
   if timers.contains requestId then [Effect.clearTimer requestId] else [])

/-- `registerPendingRequest`: store the pending entry and start the delayed
warning. -/
def registerPendingRequest (st : HandlerState) (requestId : String)
    (p : PendingRequest) : HandlerState × List Effect :=
  let scheduled := schedulePendingWarning st.pendingWarningTimers requestId
  ({ st with pendingRequests := alSet st.pendingRequests requestId p,
             pendingWarningTimers := scheduled.1 }, scheduled.2)

/-- `addPendingRequestToState`: record the in-flight entry in external agent
state. -/
def addPendingRequestToState (st : HandlerState) (requestId : String)
    (toolName : String) (input : Input) (now : Nat) : HandlerState :=
  let entry : AgentRequest := { tool := toolName, arguments := input, createdAt := now }
  { st with agentRequests := alSet st.agentRequests requestId entry }

/-- The decision computation of the RPC handler in `setupRpcHandler` (the
IIFE assigned to `result`). -/
def computeResult (response : PermissionResponse) : PermissionResult :=
  if response.approved then
    let wantsExecpolicyAmendment : Bool :=
      (response.decision == some "approved_execpolicy_amendment")
        && (match response.execPolicyAmendment with
            | some a => a.command.length != 0
            | none => false)
    if wantsExecpolicyAmendment then
      { decision := "approved_execpolicy_amendment",
        execPolicyAmendment := response.execPolicyAmendment }
    else
      { decision :=
          if response.decision == some "approved_for_session" then
            "approved_for_session"
          else "approved" }
  else
    { decision := if response.decision == some "denied" then "denied" else "abort" }

/-- The RPC handler registered for `permission` messages in
`setupRpcHandler`: normalize the id, ignore unknown ids, otherwise remove
the pending entry, clear its timer, resolve the promise and move the entry
from in-flight to completed in agent state. -/
def handlePermissionResponse (now : Nat) (st : HandlerState)
    (response : PermissionResponse) : HandlerState × List Effect :=
  let requestId := normalizeRequestId response.id
  match alGet st.pendingRequests requestId with
  | none => (st, [])
  | some _pending =>
      let pending2 := alDelete st.pendingRequests requestId
      let cleared := clearPendingWarning st.pendingWarningTimers requestId
      let result := computeResult response
      let moved :=
        match alGet st.agentRequests requestId with
        | none => (st.agentRequests, st.agentCompleted)
        | some request =>
            (alDelete st.agentRequests requestId,
             alSet st.agentCompleted requestId
               { tool := request.tool, arguments := request.arguments,
                 createdAt := request.createdAt, completedAt := now,
                 status := if response.approved then "approved" else "denied",
                 decision := some result.decision })
      ({ st with pendingRequests := pending2, pendingWarningTimers := cleared.1,
                 agentRequests := moved.1, agentCompleted := moved.2 },
       cleared.2 ++ [Effect.resolve requestId result])

/-- The consumer's rejection handler, which may throw (`reset` wraps each
call in try/catch); the oracle says which ids throw. -/
def rejectPending (throws : String → Bool) (id : String) : Except String Unit :=
  if throws id then Except.error "consumer rejection handler threw"
  else Except.ok ()

/-- The cancellation loop of `reset`: for each snapshotted entry, clear its
advisory timer and reject its promise with a session-reset failure; a
throwing rejection handler is caught per-entry and the loop continues. -/
def resetLoop (throws : String → Bool) :
    List (String × PendingRequest) → List String → List String × List Effect
  | [], timers => (timers, [])
  | (id, _) :: rest, timers =>
      let cleared := clearPendingWarning timers id
      let rejectEffs :=
        match rejectPending throws id with
        | Except.ok _ => [Effect.reject id "Session reset"]
        | Except.error _ => [Effect.reject id "Session reset"]
      let next := resetLoop throws rest cleared.1
      (next.1, cleared.2 ++ rejectEffs ++ next.2)

/-- The agent-state pass of `reset`: move every in-flight entry to the
completed map with status `canceled` and a reason. -/
def cancelAll (now : Nat) (completed : List (String × CompletedRequest)) :
    List (String × AgentRequest) → List (String × CompletedRequest)
  | [] => completed
  | (id, request) :: rest =>
      cancelAll now
        (alSet completed id
          { tool := request.tool, arguments := request.arguments,
            createdAt := request.createdAt, completedAt := now,
            status := "canceled", reason := some "Session reset" })
        rest

/-- `reset` from `BasePermissionHandler.ts`: guarded by `isResetting`,
snapshots and clears the pending table, rejects every snapshotted promise
(tolerating throwing handlers), clears the timers, and bulk-cancels the
in-flight agent-state entries; the guard flag is restored in `finally`. -/
def reset (throws : String → Bool) (now : Nat) (st : HandlerState) :
    HandlerState × List Effect :=
  if st.isResetting then (st, [])
  else
    let snapshot := st.pendingRequests
    let looped := resetLoop throws snapshot st.pendingWarningTimers
    let completed2 := cancelAll now st.agentCompleted st.agentRequests
    ({ pendingRequests := [],
       pendingWarningTimers := looped.1,
       isResetting := false,
       agentRequests := [],
       agentCompleted := completed2 }, looped.2)

/-! ## Codex permission handler (`permissionHandler.ts`) -/

/-- Tool names that always bypass approval. -/
def alwaysAutoApproveNames : List String :=
  ["change_title", "happy__change_title", "GeminiReasoning", "CodexReasoning",
   "think", "save_memory"]

/-- Tool-call ids that always bypass approval. -/
def alwaysAutoApproveIds : List String := ["change_title", "save_memory"]

/-- Write-intent vocabulary for the read-only mode. -/
def writeTools : List String :=
  ["write", "edit", "create", "delete", "patch", "fs-edit"]

/-- `CodexPermissionHandler.shouldAutoApprove`; the mode is one of the
strings "default", "read-only", "safe-yolo", "yolo" (any other string takes
the default branch, as in the TS switch). -/
def shouldAutoApprove (mode : String) (toolName : String) (toolCallId : String)
    (_input : Input) : Bool :=
  if alwaysAutoApproveNames.any
      (fun name => strIncludes (lowerStr toolName) (lowerStr name)) then
    true
  else if alwaysAutoApproveIds.any
      (fun id => strIncludes (lowerStr toolCallId) (lowerStr id)) then
    true
  else if mode = "yolo" then true
  else if mode = "safe-yolo" then true
  else if mode = "read-only" then
    !(writeTools.any (fun wt => strIncludes (lowerStr toolName) wt))
  else false

/-- The caller-visible outcome of `handleToolCall`: resolved synchronously,
or left pending awaiting a remote decision. -/
inductive ToolCallOutcome where
  | resolved (result : PermissionResult)
  | pending
deriving DecidableEq, Repr

/-- `CodexPermissionHandler.handleToolCall`: auto-approval short-circuits
with a synchronous resolution and a completed record; otherwise the request
is registered as pending, a warning timer is scheduled and the in-flight
entry is added to agent state. -/
def handleToolCall (mode : String) (now : Nat) (st : HandlerState)
    (toolCallId : String) (toolName : String) (input : Input) :
    HandlerState × List Effect × ToolCallOutcome :=
  let requestId := normalizeRequestId (RequestId.str toolCallId)
  if shouldAutoApprove mode toolName requestId input then
    let decision := if mode = "yolo" then "approved_for_session" else "approved"
    let record : CompletedRequest :=
      { tool := toolName, arguments := input, createdAt := now,
        completedAt := now, status := "approved", decision := some decision }
    ({ st with agentCompleted := alSet st.agentCompleted requestId record },
     [], ToolCallOutcome.resolved { decision := decision })
  else
    let registered := registerPendingRequest st requestId
      { toolName := toolName, input := input }
    let st2 := addPendingRequestToState registered.1 requestId toolName input now
    (st2, registered.2, ToolCallOutcome.pending)

/-! ## Session restart guard -/

/-- The restart-relevant state triple threaded through the codex control
loop. -/
structure RestartState where
  wasCreated : Bool
  currentModeHash : Option String
  thinking : Bool
deriving DecidableEq, Repr

/-- One collaborator invocation of the restart guard. -/
inductive GuardCall where
  | clearSession
  | resetPermissions
  | abortReasoning
  | resetDiff
  | keepAlive (value : Bool) (source : String)
  | addStatus (text : String)
deriving DecidableEq, Repr

/-- True exactly on status-line invocations. -/
def GuardCall.isAddStatus : GuardCall → Bool
  | GuardCall.addStatus _ => true
  | _ => false

/-- The `applyAbortRestart` helper of `cli/src/codex/runCodex.ts`, as
reproduced verbatim in the repository's design plan (Task 2 of the abort
restart guard implementation plan): it first surfaces two status lines (a
40-character separator and the restart notice), then calls the remaining
collaborators clear-session, reset-permissions, abort-reasoning,
reset-diff and keep-alive(false, "remote") once each in that order, and
returns the same message as the re-queued pending item with was-created
false, mode-hash null and thinking false. -/
def applyAbortRestart (message : String) (_state : RestartState) :
    (String × RestartState) × List GuardCall :=
  ((message,
    { wasCreated := false, currentModeHash := none, thinking := false }),
   [GuardCall.addStatus (String.mk (List.replicate 40 '═')),
    GuardCall.addStatus "Starting new Codex session (after abort)...",
    GuardCall.clearSession, GuardCall.resetPermissions,
    GuardCall.abortReasoning, GuardCall.resetDiff,
    GuardCall.keepAlive false "remote"])

/-! ## Spec-side definitions (for refinement claims) -/

/-- Follows the wording of claim C1 for how the final `PermissionDecision`
is computed from the inbound message fields (spec-side definition, compared
against the source-side `computeResult`). -/
def specResolvedDecision (approved : Bool) (decisionTag : Option String)
    (amendment : Option ExecPolicyAmendment) : PermissionResult :=
  if approved then
    match amendment with
    | some a =>
        if decisionTag = some "approved_execpolicy_amendment" ∧ a.command ≠ [] then
          { decision := "approved_execpolicy_amendment",
            execPolicyAmendment := some a }
        else if decisionTag = some "approved_for_session" then
          { decision := "approved_for_session" }
        else { decision := "approved" }
    | none =>
        if decisionTag = some "approved_for_session" then
          { decision := "approved_for_session" }
        else { decision := "approved" }
  else
    if decisionTag = some "denied" then { decision := "denied" }
    else { decision := "abort" }

theorem computeResult_eq_spec (response : PermissionResponse) :
    computeResult response
      = specResolvedDecision response.approved response.decision
          response.execPolicyAmendment := by
  unfold computeResult specResolvedDecision
  cases hap : response.approved with
  | false =>
      by_cases hden : response.decision = some "denied" <;> simp [hden]
  | true =>
      simp only [if_true]
      cases ha : response.execPolicyAmendment with
      | none =>
          by_cases hd : response.decision = some "approved_execpolicy_amendment" <;>
            by_cases hs : response.decision = some "approved_for_session" <;>
              simp [hd, hs]
      | some a =>
          by_cases hd : response.decision = some "approved_execpolicy_amendment"
          · by_cases hc : a.command = []
            · simp [hd, hc]
            · simp [hd, hc, List.length_eq_zero]
          · by_cases hs : response.decision = some "approved_for_session" <;>
              simp [hd, hs]

theorem clearPendingWarning_filter_isResolve (timers : List String) (id : String) :
    ((clearPendingWarning timers id).2).filter Effect.isResolve = [] := by
  unfold clearPendingWarning
  by_cases h : timers.contains id <;> simp [h, Effect.isResolve]

theorem clearPendingWarning_filter_isReject (timers : List String) (id : String) :
    ((clearPendingWarning timers id).2).filter Effect.isReject = [] := by
  unfold clearPendingWarning
  by_cases h : timers.contains id <;> simp [h, Effect.isReject]

/-- C1: for every inbound decision message matching a pending entry, the
resolved `PermissionDecision` follows the claimed case analysis (amendment
variant for an approval tagged `approved_execpolicy_amendment` with a
non-empty command list; `approved_for_session` for an approval so tagged;
`approved` for any other approval; `denied` for a non-approval tagged
`denied`; `abort` otherwise), and the entry moves from the in-flight map to
the completed map with status `approved` when approved and `denied` when
not. -/
theorem resolution_decision_and_completion
    (now : Nat) (st : HandlerState) (response : PermissionResponse)
    (p : PendingRequest) (r : AgentRequest)
    (hp : alGet st.pendingRequests (normalizeRequestId response.id) = some p)
    (hr : alGet st.agentRequests (normalizeRequestId response.id) = some r) :
    ((handlePermissionResponse now st response).2.filter Effect.isResolve
        = [Effect.resolve (normalizeRequestId response.id)
             (specResolvedDecision response.approved response.decision
                response.execPolicyAmendment)])
      ∧ alGet (handlePermissionResponse now st response).1.pendingRequests
          (normalizeRequestId response.id) = none
      ∧ alGet (handlePermissionResponse now st response).1.agentRequests
          (normalizeRequestId response.id) = none
      ∧ alGet (handlePermissionResponse now st response).1.agentCompleted
          (normalizeRequestId response.id)
        = some { tool := r.tool, arguments := r.arguments,
                 createdAt := r.createdAt, completedAt := now,
                 status := if response.approved then "approved" else "denied",
                 decision := some (specResolvedDecision response.approved
                   response.decision response.execPolicyAmendment).decision } := by
  unfold handlePermissionResponse
  simp only [hp, hr]
  refine ⟨?_, ?_, ?_, ?_⟩
  · rw [List.filter_append, clearPendingWarning_filter_isResolve,
      computeResult_eq_spec]
    simp [Effect.isResolve]
  · simp [alGet_alDelete_self]
  · simp [alGet_alDelete_self]
  · rw [computeResult_eq_spec] at *
    simp [alGet_alSet_self]

/-- Closed witness for `resolution_decision_and_completion` at the
end-to-end input of spec section 8. -/
theorem resolution_decision_and_completion_witness :
    alGet ((handlePermissionResponse 5
      { pendingRequests :=
          [("exec-1", { toolName := "CodexBash", input := "yarn dev" })],
        pendingWarningTimers := ["exec-1"],
        isResetting := false,
        agentRequests :=
          [("exec-1", { tool := "CodexBash", arguments := "yarn dev", createdAt := 1 })],
        agentCompleted := [] }
      { id := RequestId.str "exec-1", approved := true,
        decision := some "approved_execpolicy_amendment",
        execPolicyAmendment := some { command := ["yarn", "dev"] } }).1).agentCompleted
      "exec-1"
      = some { tool := "CodexBash", arguments := "yarn dev", createdAt := 1,
               completedAt := 5, status := "approved",
               decision := some "approved_execpolicy_amendment" } :=
  (resolution_decision_and_completion 5
    { pendingRequests :=
        [("exec-1", { toolName := "CodexBash", input := "yarn dev" })],
      pendingWarningTimers := ["exec-1"],
      isResetting := false,
      agentRequests :=
        [("exec-1", { tool := "CodexBash", arguments := "yarn dev", createdAt := 1 })],
      agentCompleted := [] }
    { id := RequestId.str "exec-1", approved := true,
      decision := some "approved_execpolicy_amendment",
      execPolicyAmendment := some { command := ["yarn", "dev"] } }
    { toolName := "CodexBash", input := "yarn dev" }
    { tool := "CodexBash", arguments := "yarn dev", createdAt := 1 }
    (by decide) (by decide)).2.2.2

/-- C2: the inbound-decision handler resolves exactly the pending entry
keyed by the normalized response id: a request registered under numeric id
N is resolved by a response carrying the decimal string of N, and by the
number N itself; and when no pending entry has the normalized id, the
handler returns without error and leaves the pending table, the timers and
the external agent state unchanged. -/
theorem response_id_normalization_and_unknown_noop
    (now : Nat) (st : HandlerState) (response : PermissionResponse) (n : Int) :
    (normalizeRequestId (RequestId.num n)
        = normalizeRequestId (RequestId.str (toString n)))
      ∧ (∀ p, alGet st.pendingRequests (normalizeRequestId (RequestId.num n)) = some p →
          response.id = RequestId.str (toString n) →
            ((handlePermissionResponse now st response).2.filter Effect.isResolve
                = [Effect.resolve (normalizeRequestId (RequestId.num n))
                     (computeResult response)])
              ∧ alGet (handlePermissionResponse now st response).1.pendingRequests
                  (normalizeRequestId (RequestId.num n)) = none)
      ∧ (∀ p, alGet st.pendingRequests (normalizeRequestId (RequestId.num n)) = some p →
          response.id = RequestId.num n →
            ((handlePermissionResponse now st response).2.filter Effect.isResolve
                = [Effect.resolve (normalizeRequestId (RequestId.num n))
                     (computeResult response)])
              ∧ alGet (handlePermissionResponse now st response).1.pendingRequests
                  (normalizeRequestId (RequestId.num n)) = none)
      ∧ (alGet st.pendingRequests (normalizeRequestId response.id) = none →
          handlePermissionResponse now st response = (st, [])) := by
  refine ⟨rfl, ?_, ?_, ?_⟩
  · intro p hp hid
    have hkey : normalizeRequestId response.id
        = normalizeRequestId (RequestId.num n) := by
      rw [hid]
      rfl
    unfold handlePermissionResponse
    rw [hkey]
    simp only [hp]
    constructor
    · simp only [List.filter_append, clearPendingWarning_filter_isResolve,
        List.nil_append]
      simp [Effect.isResolve]
    · simp [alGet_alDelete_self]
  · intro p hp hid
    have hkey : normalizeRequestId response.id
        = normalizeRequestId (RequestId.num n) := by
      rw [hid]
    unfold handlePermissionResponse
    rw [hkey]
    simp only [hp]
    constructor
    · simp only [List.filter_append, clearPendingWarning_filter_isResolve,
        List.nil_append]
      simp [Effect.isResolve]
    · simp [alGet_alDelete_self]
  · intro hnone
    unfold handlePermissionResponse
    simp only [hnone]

/-- Closed witness for `response_id_normalization_and_unknown_noop`: a
request registered under numeric id 123 is resolved by the string response
id "123". -/
theorem response_id_normalization_witness :
    ((handlePermissionResponse 9
      { pendingRequests :=
          [("123", { toolName := "CodexBash", input := "ls" })],
        pendingWarningTimers := ["123"],
        isResetting := false,
        agentRequests := [],
        agentCompleted := [] }
      { id := RequestId.str "123", approved := true,
        decision := some "approved" }).2.filter Effect.isResolve
        = [Effect.resolve "123" { decision := "approved" }])
      ∧ alGet (handlePermissionResponse 9
          { pendingRequests :=
              [("123", { toolName := "CodexBash", input := "ls" })],
            pendingWarningTimers := ["123"],
            isResetting := false,
            agentRequests := [],
            agentCompleted := [] }
          { id := RequestId.str "123", approved := true,
            decision := some "approved" }).1.pendingRequests "123" = none :=
  (response_id_normalization_and_unknown_noop 9
    { pendingRequests :=
        [("123", { toolName := "CodexBash", input := "ls" })],
      pendingWarningTimers := ["123"],
      isResetting := false,
      agentRequests := [],
      agentCompleted := [] }
    { id := RequestId.str "123", approved := true,
      decision := some "approved" } 123).2.1
    { toolName := "CodexBash", input := "ls" } (by decide) (by decide)

theorem alGet_mem_keys {α : Type} (m : List (String × α)) (k : String) (v : α)
    (h : alGet m k = some v) : k ∈ m.map Prod.fst :=
  List.mem_map.mpr ⟨(k, v), alGet_mem m k v h, rfl⟩

theorem resetLoop_filter_isReject (throws : String → Bool) :
    ∀ (l : List (String × PendingRequest)) (timers : List String),
      ((resetLoop throws l timers).2).filter Effect.isReject
        = l.map (fun q => Effect.reject q.1 "Session reset") := by
  intro l
  induction l with
  | nil => intro timers; rfl
  | cons hd rest ih =>
      intro timers
      obtain ⟨id, p⟩ := hd
      cases h : rejectPending throws id with
      | ok u =>
          simp [resetLoop, h, List.filter_append,
            clearPendingWarning_filter_isReject, Effect.isReject, ih]
      | error e =>
          simp [resetLoop, h, List.filter_append,
            clearPendingWarning_filter_isReject, Effect.isReject, ih]

theorem resetLoop_timers_subset (throws : String → Bool) :
    ∀ (l : List (String × PendingRequest)) (timers : List String) (x : String),
      x ∈ (resetLoop throws l timers).1 → x ∈ timers := by
  intro l
  induction l with
  | nil => intro timers x hx; exact hx
  | cons hd rest ih =>
      intro timers x hx
      obtain ⟨id, p⟩ := hd
      simp only [resetLoop] at hx
      have hx2 := ih (clearPendingWarning timers id).1 x hx
      unfold clearPendingWarning at hx2
      exact (List.mem_filter.mp hx2).1

theorem resetLoop_timers_cleared (throws : String → Bool) :
    ∀ (l : List (String × PendingRequest)) (timers : List String) (id : String),
      id ∈ l.map Prod.fst → id ∉ (resetLoop throws l timers).1 := by
  intro l
  induction l with
  | nil => intro timers id h; simp at h
  | cons hd rest ih =>
      intro timers id h hmem
      obtain ⟨k, p⟩ := hd
      simp only [List.map_cons, List.mem_cons] at h
      simp only [resetLoop] at hmem
      rcases h with h | h
      · subst h
        have hx2 := resetLoop_timers_subset throws rest _ id hmem
        unfold clearPendingWarning at hx2
        have hcontra := (List.mem_filter.mp hx2).2
        simp at hcontra
      · exact ih _ id h hmem

theorem resetLoop_throws_indep (throws throws2 : String → Bool) :
    ∀ (l : List (String × PendingRequest)) (timers : List String),
      resetLoop throws l timers = resetLoop throws2 l timers := by
  intro l
  induction l with
  | nil => intro timers; rfl
  | cons hd rest ih =>
      intro timers
      obtain ⟨id, p⟩ := hd
      cases h1 : rejectPending throws id <;> cases h2 : rejectPending throws2 id <;>
        simp [resetLoop, h1, h2, ih]

theorem cancelAll_get_not_mem (now : Nat) :
    ∀ (l : List (String × AgentRequest)) (acc : List (String × CompletedRequest))
      (id : String), id ∉ l.map Prod.fst →
      alGet (cancelAll now acc l) id = alGet acc id := by
  intro l
  induction l with
  | nil => intro acc id _; rfl
  | cons hd rest ih =>
      intro acc id h
      obtain ⟨k, r⟩ := hd
      simp only [List.map_cons, List.mem_cons, not_or] at h
      obtain ⟨hk, hrest⟩ := h
      simp only [cancelAll]
      rw [ih _ id hrest]
      exact alGet_alSet_ne _ _ _ _ hk

theorem cancelAll_get_mem (now : Nat) :
    ∀ (l : List (String × AgentRequest)) (acc : List (String × CompletedRequest))
      (id : String) (r : AgentRequest),
      (l.map Prod.fst).Nodup → alGet l id = some r →
      alGet (cancelAll now acc l) id
        = some { tool := r.tool, arguments := r.arguments,
                 createdAt := r.createdAt, completedAt := now,
                 status := "canceled", reason := some "Session reset" } := by
  intro l
  induction l with
  | nil => intro acc id r _ h; simp [alGet] at h
  | cons hd rest ih =>
      intro acc id r hnd h
      obtain ⟨k, v⟩ := hd
      simp only [List.map_cons, List.nodup_cons] at hnd
      obtain ⟨hknotin, hndrest⟩ := hnd
      by_cases hk : k = id
      · subst hk
        have hrv : v = r := by simpa [alGet] using h
        subst hrv
        simp only [cancelAll]
        rw [cancelAll_get_not_mem now rest _ k hknotin]
        exact alGet_alSet_self _ _ _
      · have h2 : alGet rest id = some r := by simpa [alGet, hk] using h
        simp only [cancelAll]
        exact ih _ id r hndrest h2

theorem reset_on_clean (throws : String → Bool) (now : Nat)
    (timers : List String) (completed : List (String × CompletedRequest)) :
    reset throws now
      { pendingRequests := [], pendingWarningTimers := timers,
        isResetting := false, agentRequests := [], agentCompleted := completed }
      = ({ pendingRequests := [], pendingWarningTimers := timers,
           isResetting := false, agentRequests := [], agentCompleted := completed },
         []) := by
  simp [reset, resetLoop, cancelAll]

/-- C3: reset is idempotent and re-entrancy-guarded: every entry pending
when reset begins is rejected with a session-reset failure exactly once and
its advisory timer is cleared; all externally recorded in-flight entries
are moved to status `canceled` with a reason; a throwing consumer rejection
handler does not change the outcome (it is caught per-entry); a second
reset on the resulting state rejects or cancels nothing; and a reset
started while one is in progress is a no-op. -/
theorem reset_cancellation_and_idempotence
    (throws throws2 : String → Bool) (now : Nat) (st : HandlerState)
    (hguard : st.isResetting = false)
    (hA : (st.agentRequests.map Prod.fst).Nodup) :
    ((reset throws now st).2.filter Effect.isReject
        = st.pendingRequests.map (fun q => Effect.reject q.1 "Session reset"))
      ∧ (∀ id p, alGet st.pendingRequests id = some p →
           id ∉ (reset throws now st).1.pendingWarningTimers)
      ∧ (reset throws now st).1.pendingRequests = []
      ∧ (reset throws now st).1.agentRequests = []
      ∧ (∀ id r, alGet st.agentRequests id = some r →
           alGet (reset throws now st).1.agentCompleted id
             = some { tool := r.tool, arguments := r.arguments,
                      createdAt := r.createdAt, completedAt := now,
                      status := "canceled", reason := some "Session reset" })
      ∧ reset throws2 now st = reset throws now st
      ∧ reset throws2 now (reset throws now st).1 = ((reset throws now st).1, [])
      ∧ (∀ st2 : HandlerState, st2.isResetting = true →
           reset throws now st2 = (st2, [])) := by
  refine ⟨?_, ?_, ?_, ?_, ?_, ?_, ?_, ?_⟩
  · simp only [reset, hguard, Bool.false_eq_true, if_false]
    exact resetLoop_filter_isReject throws st.pendingRequests st.pendingWarningTimers
  · intro id p hp
    simp only [reset, hguard, Bool.false_eq_true, if_false]
    exact resetLoop_timers_cleared throws st.pendingRequests st.pendingWarningTimers
      id (alGet_mem_keys st.pendingRequests id p hp)
  · simp [reset, hguard]
  · simp [reset, hguard]
  · intro id r hr
    simp only [reset, hguard, Bool.false_eq_true, if_false]
    exact cancelAll_get_mem now st.agentRequests st.agentCompleted id r hA hr
  · simp only [reset, hguard, Bool.false_eq_true, if_false]
    rw [resetLoop_throws_indep throws2 throws]
  · simp only [reset, hguard, Bool.false_eq_true, if_false]
    exact reset_on_clean throws2 now _ _
  · intro st2 h2
    simp [reset, h2]

/-- Closed witness for `reset_cancellation_and_idempotence` with one
pending entry, one in-flight entry, and a consumer rejection handler that
always throws. -/
theorem reset_cancellation_witness :
    (reset (fun _ => true) 7
      { pendingRequests := [("a", { toolName := "CodexBash", input := "ls" })],
        pendingWarningTimers := ["a"],
        isResetting := false,
        agentRequests := [("a", { tool := "CodexBash", arguments := "ls", createdAt := 2 })],
        agentCompleted := [] }).2.filter Effect.isReject
      = [Effect.reject "a" "Session reset"] :=
  (reset_cancellation_and_idempotence (fun _ => true) (fun _ => false) 7
    { pendingRequests := [("a", { toolName := "CodexBash", input := "ls" })],
      pendingWarningTimers := ["a"],
      isResetting := false,
      agentRequests := [("a", { tool := "CodexBash", arguments := "ls", createdAt := 2 })],
      agentCompleted := [] }
    rfl (by decide)).1

/-- C4 counterexample: at the test's input (message "hello", state with
wasCreated true, mode-hash "old", thinking true) the status-line
collaborator is invoked twice, not exactly once, and it is the first
invocation, not the last after the other five — refuting the claim that
each of the six collaborators is invoked exactly once in the order ending
with the status line. -/
theorem abort_restart_guard_counterexample :
    (((applyAbortRestart "hello"
          { wasCreated := true, currentModeHash := some "old", thinking := true
          }).2.filter GuardCall.isAddStatus).length ≠ 1)
      ∧ ((applyAbortRestart "hello"
            { wasCreated := true, currentModeHash := some "old", thinking := true
            }).2.head? ≠ some GuardCall.clearSession)
      ∧ ((applyAbortRestart "hello"
            { wasCreated := true, currentModeHash := some "old", thinking := true
            }).2.getLast?.map GuardCall.isAddStatus ≠ some true) := by
  refine ⟨by decide, by decide, by decide⟩

/-- C4 (amended): the restart guard, for every input message and state,
first surfaces the status line — invoking the add-status collaborator twice
(a separator line and the restart notice) before anything else — then
invokes clear-session, reset-permissions, abort-reasoning, reset-diff and
keep-alive(false, "remote") exactly once each, in that order,
unconditionally, and returns the same message as the re-queued pending item
with wasCreated false, currentModeHash null and thinking false. -/
theorem abort_restart_guard_amended (message : String) (state : RestartState) :
    applyAbortRestart message state
        = ((message,
            { wasCreated := false, currentModeHash := none, thinking := false }),
           [GuardCall.addStatus (String.mk (List.replicate 40 '═')),
            GuardCall.addStatus "Starting new Codex session (after abort)...",
            GuardCall.clearSession, GuardCall.resetPermissions,
            GuardCall.abortReasoning, GuardCall.resetDiff,
            GuardCall.keepAlive false "remote"])
      ∧ (applyAbortRestart message state).2.count GuardCall.clearSession = 1
      ∧ (applyAbortRestart message state).2.count GuardCall.resetPermissions = 1
      ∧ (applyAbortRestart message state).2.count GuardCall.abortReasoning = 1
      ∧ (applyAbortRestart message state).2.count GuardCall.resetDiff = 1
      ∧ (applyAbortRestart message state).2.count (GuardCall.keepAlive false "remote") = 1
      ∧ ((applyAbortRestart message state).2.filter GuardCall.isAddStatus).length = 2
      ∧ ((applyAbortRestart message state).2.takeWhile GuardCall.isAddStatus).length = 2 :=
  ⟨rfl, rfl, rfl, rfl, rfl, rfl, rfl, rfl⟩

/-- C5: `mapPermissionResultToDecision` yields the amendment wire-shape
carrying the result's command list exactly when the decision tag is
`approved_execpolicy_amendment` and the command list is present and
non-empty; an amendment-tagged result with a missing or empty command list
degrades to plain `approved`; every other decision value passes through
unchanged. -/
theorem map_result_amendment_promotion (result : PermissionResult) :
    (∀ cmds, mapPermissionResultToDecision result
          = ReviewDecision.approvedExecpolicyAmendment cmds
        ↔ (result.decision = "approved_execpolicy_amendment"
            ∧ result.execPolicyAmendment = some { command := cmds }
            ∧ cmds ≠ []))
      ∧ (result.decision = "approved_execpolicy_amendment" →
          (result.execPolicyAmendment = none
            ∨ result.execPolicyAmendment = some { command := [] }) →
          mapPermissionResultToDecision result = ReviewDecision.plain "approved")
      ∧ (result.decision ≠ "approved_execpolicy_amendment" →
          mapPermissionResultToDecision result
            = ReviewDecision.plain result.decision) := by
  refine ⟨?_, ?_, ?_⟩
  · intro cmds
    by_cases hd : result.decision = "approved_execpolicy_amendment"
    · cases ha : result.execPolicyAmendment with
      | none => simp [mapPermissionResultToDecision, hd, ha]
      | some a =>
          obtain ⟨ac⟩ := a
          by_cases hc : ac = []
          · subst hc
            simp [mapPermissionResultToDecision, hd, ha]
          · have hmap : mapPermissionResultToDecision result
                = ReviewDecision.approvedExecpolicyAmendment ac := by
              simp [mapPermissionResultToDecision, hd, ha, hc, List.length_eq_zero]
            rw [hmap]
            constructor
            · intro h
              injection h with h5
              subst h5
              exact ⟨hd, rfl, hc⟩
            · rintro ⟨h1, h2, h3⟩
              have h4 : ac = cmds := by
                injection h2 with h5
                exact congrArg ExecPolicyAmendment.command h5
              subst h4
              rfl
    · simp [mapPermissionResultToDecision, hd]
  · intro hd hdeg
    rcases hdeg with ha | ha <;>
      simp [mapPermissionResultToDecision, hd, ha]
  · intro hd
    simp [mapPermissionResultToDecision, hd]

/-- Closed witness for `map_result_amendment_promotion`: an amendment-tagged
result with command list `["yarn"]` is promoted to the amendment variant. -/
theorem map_result_amendment_promotion_witness :
    mapPermissionResultToDecision
        { decision := "approved_execpolicy_amendment",
          execPolicyAmendment := some { command := ["yarn"] } }
      = ReviewDecision.approvedExecpolicyAmendment ["yarn"] :=
  ((map_result_amendment_promotion
      { decision := "approved_execpolicy_amendment",
        execPolicyAmendment := some { command := ["yarn"] } }).1
    ["yarn"]).mpr ⟨rfl, rfl, by decide⟩

/-- C6: `getElicitationResponseStyle` returns the override whenever it is
exactly "decision" or "both", regardless of version; otherwise an unparsed
version yields "both", a parsed version at or below the 0.77.0 cutoff
(under `compareVersions`) yields "decision" (so 0.77.0 yields "decision"),
and a parsed version above the cutoff yields "both" (so 0.78.0 yields
"both"). -/
theorem elicitation_style_selection (info : CodexVersionInfo)
    (override : Option String) :
    (override = some "decision" →
        getElicitationResponseStyle info override = "decision")
      ∧ (override = some "both" →
          getElicitationResponseStyle info override = "both")
      ∧ (override ≠ some "decision" → override ≠ some "both" →
          (info.parsed = false →
              getElicitationResponseStyle info override = "both")
            ∧ (info.parsed = true →
                (getElicitationResponseStyle info override = "decision"
                    ↔ compareVersions info ELICITATION_DECISION_MAX_VERSION ≤ 0)
                  ∧ (getElicitationResponseStyle info override = "both"
                    ↔ 0 < compareVersions info ELICITATION_DECISION_MAX_VERSION)))
      ∧ getElicitationResponseStyle
          { raw := some "codex-cli 0.77.0", parsed := true,
            major := 0, minor := 77, patch := 0 } none = "decision"
      ∧ getElicitationResponseStyle
          { raw := some "codex-cli 0.78.0", parsed := true,
            major := 0, minor := 78, patch := 0 } none = "both" := by
  refine ⟨?_, ?_, ?_, by decide, by decide⟩
  · intro h
    simp [getElicitationResponseStyle, h]
  · intro h
    simp [getElicitationResponseStyle, h]
  · intro h1 h2
    constructor
    · intro hparsed
      simp [getElicitationResponseStyle, h1, h2, hparsed]
    · intro hparsed
      have hsty : getElicitationResponseStyle info override
          = (if compareVersions info ELICITATION_DECISION_MAX_VERSION ≤ 0
             then "decision" else "both") := by
        simp [getElicitationResponseStyle, isVersionAtMost, h1, h2, hparsed]
      rw [hsty]
      by_cases hle : compareVersions info ELICITATION_DECISION_MAX_VERSION ≤ 0
      · have hnlt : ¬ 0 < compareVersions info ELICITATION_DECISION_MAX_VERSION :=
          not_lt.mpr hle
        simp [hle, hnlt]
      · have hlt : 0 < compareVersions info ELICITATION_DECISION_MAX_VERSION :=
          not_le.mp hle
        simp [hle, hlt]

/-- Closed witness for `elicitation_style_selection`: the "decision"
override wins for the unparsed version record. -/
theorem elicitation_style_selection_witness :
    getElicitationResponseStyle
        { raw := none, parsed := false, major := 0, minor := 0, patch := 0 }
        (some "decision") = "decision" :=
  (elicitation_style_selection
    { raw := none, parsed := false, major := 0, minor := 0, patch := 0 }
    (some "decision")).1 rfl

/-- Strict lexicographic order on (major, minor, patch) triples, following
the wording of claim C7 (spec-side definition compared against the
source-side `compareVersions`). -/
def tripleLt (a b : Int × Int × Int) : Prop :=
  a.1 < b.1 ∨ (a.1 = b.1 ∧ (a.2.1 < b.2.1 ∨ (a.2.1 = b.2.1 ∧ a.2.2 < b.2.2)))

/-- C7: `compareVersions` orders by (major, minor, patch) lexicographically;
on equal triples, both prerelease tags absent compares equal, a present tag
on the info side with an absent target tag makes info strictly older, an
absent info tag with a present target tag makes info strictly newer,
present-but-differing tags compare by lexical string order, and equal tags
compare by the trailing numeric suffix with an absent suffix treated as 0. -/
theorem compare_versions_ordering (info : CodexVersionInfo)
    (target : CodexVersionTarget) :
    ((info.major, info.minor, info.patch)
        ≠ (target.major, target.minor, target.patch) →
        (compareVersions info target < 0
            ↔ tripleLt (info.major, info.minor, info.patch)
                (target.major, target.minor, target.patch))
          ∧ (0 < compareVersions info target
            ↔ tripleLt (target.major, target.minor, target.patch)
                (info.major, info.minor, info.patch)))
      ∧ ((info.major, info.minor, info.patch)
          = (target.major, target.minor, target.patch) →
          (info.prereleaseTag = none → target.prereleaseTag = none →
              compareVersions info target = 0)
            ∧ (∀ a, info.prereleaseTag = some a → target.prereleaseTag = none →
                compareVersions info target < 0)
            ∧ (∀ b, info.prereleaseTag = none → target.prereleaseTag = some b →
                0 < compareVersions info target)
            ∧ (∀ a b, info.prereleaseTag = some a → target.prereleaseTag = some b →
                a ≠ b →
                compareVersions info target = localeCompare a b
                  ∧ (localeCompare a b < 0 ↔ a < b)
                  ∧ (0 < localeCompare a b ↔ b < a))
            ∧ (∀ a, info.prereleaseTag = some a → target.prereleaseTag = some a →
                compareVersions info target
                  = info.prereleaseNum.getD 0 - target.prereleaseNum.getD 0)) := by
  constructor
  · intro hne
    by_cases h1 : info.major = target.major
    · by_cases h2 : info.minor = target.minor
      · by_cases h3 : info.patch = target.patch
        · exact absurd (by rw [h1, h2, h3]) hne
        · have hcv : compareVersions info target = info.patch - target.patch := by
            simp [compareVersions, h1, h2, h3]
          have h3s : ¬ target.patch = info.patch := fun hc => h3 hc.symm
          rw [hcv]
          constructor
          · rw [sub_neg]
            unfold tripleLt
            simp [h1, h2]
          · rw [sub_pos]
            unfold tripleLt
            simp [h1, h2]
      · have hcv : compareVersions info target = info.minor - target.minor := by
          simp [compareVersions, h1, h2]
        have h2s : ¬ target.minor = info.minor := fun hc => h2 hc.symm
        rw [hcv]
        constructor
        · rw [sub_neg]
          unfold tripleLt
          simp [h1, h2]
        · rw [sub_pos]
          unfold tripleLt
          simp [h1, h2s]
    · have hcv : compareVersions info target = info.major - target.major := by
        simp [compareVersions, h1]
      have h1s : ¬ target.major = info.major := fun hc => h1 hc.symm
      rw [hcv]
      constructor
      · rw [sub_neg]
        unfold tripleLt
        simp [h1]
      · rw [sub_pos]
        unfold tripleLt
        simp [h1s]
  · intro heq
    have e1 : info.major = target.major := congrArg Prod.fst heq
    have e2 : info.minor = target.minor := congrArg (fun p => p.2.1) heq
    have e3 : info.patch = target.patch := congrArg (fun p => p.2.2) heq
    refine ⟨?_, ?_, ?_, ?_, ?_⟩
    · intro hin htn
      simp [compareVersions, e1, e2, e3, hin, htn]
    · intro a hia htn
      simp [compareVersions, e1, e2, e3, hia, htn]
    · intro b hin htb
      simp [compareVersions, e1, e2, e3, hin, htb]
    · intro a b hia htb hab
      refine ⟨by simp [compareVersions, e1, e2, e3, hia, htb, hab], ?_, ?_⟩
      · unfold localeCompare
        by_cases hlt : a < b
        · simp [hlt]
        · have hgt : b < a := by
            rcases lt_or_gt_of_ne hab with h | h
            · exact absurd h hlt
            · exact h
          simp [hlt, hgt]
      · unfold localeCompare
        by_cases hlt : a < b
        · have hnlt : ¬ b < a := lt_asymm hlt
          simp [hlt, hnlt]
        · have hgt : b < a := by
            rcases lt_or_gt_of_ne hab with h | h
            · exact absurd h hlt
            · exact h
          simp [hlt, hgt]
    · intro a hia htaa
      simp [compareVersions, e1, e2, e3, hia, htaa]

/-- Closed witness for `compare_versions_ordering`: 0.77.0-alpha is strictly
older than the bare 0.77.0 target. -/
theorem compare_versions_ordering_witness :
    compareVersions
        { raw := none, parsed := true, major := 0, minor := 77, patch := 0,
          prereleaseTag := some "alpha" }
        ELICITATION_DECISION_MAX_VERSION < 0 :=
  ((compare_versions_ordering
      { raw := none, parsed := true, major := 0, minor := 77, patch := 0,
        prereleaseTag := some "alpha" }
      ELICITATION_DECISION_MAX_VERSION).2 (by decide)).2.1 "alpha" rfl rfl

theorem shouldAutoApprove_yolo (toolName toolCallId : String) (input : Input) :
    shouldAutoApprove "yolo" toolName toolCallId input = true := by
  unfold shouldAutoApprove
  cases h1 : alwaysAutoApproveNames.any
      (fun name => strIncludes (lowerStr toolName) (lowerStr name)) <;>
    cases h2 : alwaysAutoApproveIds.any
        (fun id => strIncludes (lowerStr toolCallId) (lowerStr id)) <;>
      simp [h1, h2]

/-- C8: in permission mode "yolo", every tool call is resolved synchronously
with decision `approved_for_session` and a completed record with status
`approved` is written; no pending entry is created, no advisory timer is
scheduled (no effects are emitted at all), and no in-flight request is
surfaced to the remote operator through agent state. -/
theorem yolo_auto_approval (now : Nat) (st : HandlerState)
    (toolCallId toolName : String) (input : Input) :
    ((handleToolCall "yolo" now st toolCallId toolName input).2.2
        = ToolCallOutcome.resolved { decision := "approved_for_session" })
      ∧ (handleToolCall "yolo" now st toolCallId toolName input).2.1 = []
      ∧ (handleToolCall "yolo" now st toolCallId toolName input).1.pendingRequests
          = st.pendingRequests
      ∧ (handleToolCall "yolo" now st toolCallId toolName input).1.pendingWarningTimers
          = st.pendingWarningTimers
      ∧ (handleToolCall "yolo" now st toolCallId toolName input).1.agentRequests
          = st.agentRequests
      ∧ alGet (handleToolCall "yolo" now st toolCallId toolName input).1.agentCompleted
          toolCallId
        = some { tool := toolName, arguments := input, createdAt := now,
                 completedAt := now, status := "approved",
                 decision := some "approved_for_session" } := by
  have hauto := shouldAutoApprove_yolo toolName toolCallId input
  refine ⟨?_, ?_, ?_, ?_, ?_, ?_⟩ <;>
    simp [handleToolCall, normalizeRequestId, hauto, alGet_alSet_self]

/-- C9: `buildCodexMcpCommand` returns, for every runner, the runner's
command with the single fixed subcommand token "mcp-server" appended after
the runner's existing argument list; the appended token is the constant
`CODEX_MCP_SUBCOMMAND`, which is not the legacy "mcp" token, and the
function consults no version information. -/
theorem build_codex_mcp_command (runner : CodexRunner) :
    buildCodexMcpCommand runner
        = (runner.command, runner.args ++ ["mcp-server"])
      ∧ (buildCodexMcpCommand runner).2.getLast? = some CODEX_MCP_SUBCOMMAND
      ∧ CODEX_MCP_SUBCOMMAND = "mcp-server"
      ∧ CODEX_MCP_SUBCOMMAND ≠ "mcp" := by
  refine ⟨rfl, ?_, rfl, by decide⟩
  unfold buildCodexMcpCommand
  exact List.getLast?_concat _

/-- C10: every auto-approved tool call in a permission mode other than
"yolo" resolves with plain decision `approved` (not `approved_for_session`)
and records a completed entry with status `approved` and decision
`approved`. -/
theorem non_yolo_auto_approval (mode : String) (now : Nat) (st : HandlerState)
    (toolCallId toolName : String) (input : Input)
    (hmode : mode ≠ "yolo")
    (hauto : shouldAutoApprove mode toolName toolCallId input = true) :
    ((handleToolCall mode now st toolCallId toolName input).2.2
        = ToolCallOutcome.resolved { decision := "approved" })
      ∧ alGet (handleToolCall mode now st toolCallId toolName input).1.agentCompleted
          toolCallId
        = some { tool := toolName, arguments := input, createdAt := now,
                 completedAt := now, status := "approved",
                 decision := some "approved" } := by
  constructor <;>
    simp [handleToolCall, normalizeRequestId, hauto, hmode, alGet_alSet_self]

/-- Closed witness for `non_yolo_auto_approval`: mode "safe-yolo" with an
ordinary tool resolves with plain `approved`. -/
theorem non_yolo_auto_approval_witness :
    ((handleToolCall "safe-yolo" 3
        { pendingRequests := [], pendingWarningTimers := [],
          isResetting := false, agentRequests := [], agentCompleted := [] }
        "call-1" "Bash" "ls").2.2
      = ToolCallOutcome.resolved { decision := "approved" })
      ∧ alGet (handleToolCall "safe-yolo" 3
          { pendingRequests := [], pendingWarningTimers := [],
            isResetting := false, agentRequests := [], agentCompleted := [] }
          "call-1" "Bash" "ls").1.agentCompleted "call-1"
        = some { tool := "Bash", arguments := "ls", createdAt := 3,
                 completedAt := 3, status := "approved",
                 decision := some "approved" } :=
  non_yolo_auto_approval "safe-yolo" 3
    { pendingRequests := [], pendingWarningTimers := [],
      isResetting := false, agentRequests := [], agentCompleted := [] }
    "call-1" "Bash" "ls" (by decide) (by decide)

end Happy
